import Mathlib

/-!
# Verification of the WordPress plugin performance experiment controller

Shallow embedding of `src/index.js` (WordPress-CLI-Performance-Analysis).
The script connects to a WordPress server, fetches the plugin list, measures a
Lighthouse baseline for a fixed page list, then for each plugin with status
`"active"`: deactivates it, waits, re-measures, compares against the baseline,
records the comparison in `performanceImpact`, reactivates it, waits, advances
`currentIteration` and writes `progress.json`.  A concurrently-read `shouldStop`
flag (set by typing `stop`) is consulted at the top of each loop iteration.

Modelling conventions:
* JS numbers are modelled as `ℚ`.  `Number.prototype.toFixed(2)` composed with
  the `parseFloat` used at aggregation time is modelled as rounding to two
  decimal places (`toFixed2`).
* The external SSH channel and Lighthouse are opaque capabilities; a rejected
  promise from them is modelled as `Except.error`.  The `await` in the source
  propagates such rejections up to the single `try/catch` in `main`.
* The 5-second settle delays are pure waits with no observable state and are
  not modelled; the *order* of the remote calls and the checkpoint write is
  modelled faithfully via an event trace.
-/

namespace WpPerf

/-- One row of `wp plugin list --format=json` as the script uses it:
`plugin.name` and `plugin.status` (the script tests `status === 'active'`). -/
structure Plugin where
  name : String
  status : String
deriving Repr, DecidableEq

/-- A per-page entry of `baselinePerformance` / `currentPerformance`:
either a Lighthouse performance score (a number) or the string `'Error'`
written by the `catch` branch of `testPerformance`. -/
inductive Measurement where
  | score (value : ℚ)
  | error
deriving Repr, DecidableEq

/-- The parsed Lighthouse report returned by `runLighthouse`.  The script reads
only `categories.performance.score`; the report also carries audit `metrics`
and `timings` data, which the script discards. -/
structure LighthouseResult where
  score : ℚ
  metrics : List (String × ℚ)
  timings : List (String × ℚ)
deriving Repr, DecidableEq

/-- `x.toFixed(2)` followed by `parseFloat` (which is how `comparison.diff`
is written in `comparePerformance` and read back in the sort/report
aggregations): rounding to two decimal places. -/
def toFixed2 (q : ℚ) : ℚ := ((q * 100 + 1/2).floor : ℚ) / 100

/-- `Rat.floor` agrees with the `Int.floor` of the `FloorRing` instance. -/
theorem ratFloor_eq_floor (q : ℚ) : q.floor = ⌊q⌋ :=
  (Rat.floor_def' q).trans Rat.floor_def.symm

/-- `toFixed2` is rounding to the nearest hundredth. -/
theorem toFixed2_eq_round (q : ℚ) : toFixed2 q = (round (q * 100) : ℚ) / 100 := by
  rw [toFixed2, round_eq, ratFloor_eq_floor]

/-- Two-decimal rounding moves a value by at most `1/200`. -/
theorem abs_toFixed2_sub_le (q : ℚ) : |q - toFixed2 q| ≤ 1 / 200 := by
  rw [toFixed2_eq_round]
  have h := abs_sub_round (q * 100)
  have h2 : |q * 100 - (round (q * 100) : ℚ)| / 100 ≤ (1 / 2) / 100 := by
    apply div_le_div_of_nonneg_right h (by norm_num) |>.trans_eq rfl
  calc |q - (round (q * 100) : ℚ) / 100|
      = |q * 100 - (round (q * 100) : ℚ)| / 100 := by
        rw [← abs_of_pos (show (0:ℚ) < 100 by norm_num), ← abs_div]
        congr 1
        field_simp
    _ ≤ (1 / 2) / 100 := h2
    _ = 1 / 200 := by norm_num

/-- The object `{diff, faster, baseline, current}` built per page by
`comparePerformance`.  `diff`, `baseline` and `current` are stored via
`toFixed(2)`; `faster` is computed from the unrounded difference. -/
structure Delta where
  diff : ℚ
  faster : Bool
  baseline : ℚ
  current : ℚ
deriving Repr, DecidableEq

/-- A per-page entry of the comparison object: the delta object, or the string
`'Error'` when either side of the comparison is `'Error'`. -/
inductive Comparison where
  | delta (d : Delta)
  | error
deriving Repr, DecidableEq

/-- The body of the `for (const page in baseline)` loop of `comparePerformance`
for one page: `baseline[page]` and `current[page]` are compared (`!== 'Error'`),
and either a delta object or `'Error'` is produced. -/
def comparePage (b c : Measurement) : Comparison :=
  match b, c with
  | .score bv, .score cv =>
      .delta ⟨toFixed2 (cv - bv), decide (cv - bv > 0), toFixed2 bv, toFixed2 cv⟩
  | _, _ => .error

/-- `comparePerformance(baseline, current)`: iterates over the key set of
`baseline`, producing one `Comparison` per page.  In the script both objects
are always built over the same `PAGES_TO_TEST` key list; a key missing from
`current` (impossible in the script, and a precondition violation per the
spec) is mapped to `Comparison.error`. -/
def comparePerformance (baseline current : List (String × Measurement)) :
    List (String × Comparison) :=
  baseline.map (fun pb =>
    (pb.1, match current.lookup pb.1 with
           | some c => comparePage pb.2 c
           | none => Comparison.error))

/-- Projection performed by `testPerformance` on the Lighthouse call:
`lighthouseResult.categories.performance.score * 100` on success, and the
string `'Error'` when the awaited call threw (the `catch` branch). -/
def measurementOf (r : Except String LighthouseResult) : Measurement :=
  match r with
  | .ok lh => .score (lh.score * 100)
  | .error _ => .error

/-- `testPerformance(pages)`: one measurement per page, with per-page failures
caught and recorded as `'Error'` (never aborting the pass). -/
def testPerformance (pages : List String)
    (measure : String → Except String LighthouseResult) :
    List (String × Measurement) :=
  pages.map (fun page => (page, measurementOf (measure page)))

/-- The summand `comparison !== 'Error' ? parseFloat(comparison.diff) : 0`
used by both aggregation sites (the sort comparator at lines 284-294 and the
overall-impact report at lines 309-313). -/
def comparisonDiff (c : Comparison) : ℚ :=
  match c with
  | .delta d => d.diff
  | .error => 0

/-- `Object.values(impact).reduce((sum, c) => sum + (c !== 'Error' ?
parseFloat(c.diff) : 0), 0)`: a feature's total score delta. -/
def totalImpact (imp : List (String × Comparison)) : ℚ :=
  imp.foldl (fun sum pc => sum + comparisonDiff pc.2) 0

/-- `performanceImpact[plugin.name] = comparison`: JS object assignment keeps
the position of an existing key and appends a new key at the end. -/
def recordImpact (imp : List (String × List (String × Comparison)))
    (k : String) (v : List (String × Comparison)) :
    List (String × List (String × Comparison)) :=
  if imp.any (fun p => p.1 == k) then
    imp.map (fun p => if p.1 == k then (k, v) else p)
  else imp ++ [(k, v)]

/-- `comparePage` with an `'Error'` candidate is `'Error'`, whatever the
baseline side holds. -/
theorem comparePage_error_right (b : Measurement) :
    comparePage b Measurement.error = Comparison.error := by
  cases b <;> rfl

/-- Looking a page up in the output of `comparePerformance` evaluates the
per-page comparison on the looked-up baseline value and the candidate value
for that page. -/
theorem comparePerformance_lookup (b c : List (String × Measurement))
    (page : String) :
    (comparePerformance b c).lookup page =
      (b.lookup page).map (fun bv =>
        match c.lookup page with
        | some cv => comparePage bv cv
        | none => Comparison.error) := by
  induction b with
  | nil => rfl
  | cons hd tl ih =>
    obtain ⟨k, v⟩ := hd
    cases h : page == k with
    | true =>
      have he : page = k := eq_of_beq h
      subst he
      simp [comparePerformance, List.lookup, h]
    | false =>
      simp only [comparePerformance, List.map_cons, List.lookup, h] at ih ⊢
      exact ih

/-- C3, counterexample.  The claim says the returned `Delta` has
`scoreDiff = candidate.score - baseline.score` and `improved = (scoreDiff > 0)`
(false at 0).  In the code the stored `diff` field is `diff.toFixed(2)` while
`faster` is computed from the unrounded difference: with baseline `80` and
candidate `80.001`, the stored `diff` is `0.00` (not `0.001`), yet `faster` is
`true` although the stored `scoreDiff` is exactly `0`. -/
theorem c3_counterexample :
    ∃ d : Delta,
      comparePage (Measurement.score 80) (Measurement.score (80 + 1/1000)) =
        Comparison.delta d ∧
      d.diff ≠ (80 + 1/1000 : ℚ) - 80 ∧
      d.faster = true ∧
      ¬ d.diff > 0 := by
  refine ⟨⟨0, true, 80, 80⟩, ?_, by norm_num, rfl, by norm_num⟩
  simp only [comparePage]
  norm_num [toFixed2, ratFloor_eq_floor]

/-- C3, amended: for a both-`Success` page, `comparePerformance` returns a
delta whose stored `diff` is the two-decimal rounding of
`candidate.score - baseline.score` (hence within `1/200` of it), and whose
`faster` flag is computed from the unrounded difference — so `faster` is true
iff the raw difference is positive, and false when the raw difference is
exactly `0`. -/
theorem c3_delta_fields (bv cv : ℚ) :
    ∃ d : Delta,
      comparePage (Measurement.score bv) (Measurement.score cv) =
        Comparison.delta d ∧
      d.diff = toFixed2 (cv - bv) ∧
      |(cv - bv) - d.diff| ≤ 1/200 ∧
      (d.faster = true ↔ cv - bv > 0) ∧
      (cv - bv = 0 → d.faster = false) := by
  refine ⟨⟨toFixed2 (cv - bv), decide (cv - bv > 0), toFixed2 bv, toFixed2 cv⟩,
    rfl, rfl, abs_toFixed2_sub_le _, by simp [decide_eq_true_iff], ?_⟩
  intro h
  simp [h]

/-- C3, witness: the amended statement applied at baseline `2`, candidate `3`. -/
theorem c3_witness :
    ∃ d : Delta,
      comparePage (Measurement.score 2) (Measurement.score 3) =
        Comparison.delta d ∧
      d.diff = toFixed2 (3 - 2) ∧
      |(3 - 2 : ℚ) - d.diff| ≤ 1/200 ∧
      (d.faster = true ↔ (3 - 2 : ℚ) > 0) ∧
      ((3 - 2 : ℚ) = 0 → d.faster = false) :=
  c3_delta_fields 2 3

/-! ## Checkpoint store

`saveProgress` serialises the four progress globals to `progress.json` via
`JSON.stringify`; `loadProgress` restores them via `JSON.parse` when the file
exists, and returns `false` (fresh start) when it does not.  The file system is
modelled as an `Option Json` (the current contents of `progress.json`), and the
JSON text as a JSON value tree. -/

/-- A JSON value, as produced by `JSON.stringify`/`JSON.parse`. -/
inductive Json where
  | null
  | bool (b : Bool)
  | num (q : ℚ)
  | str (s : String)
  | arr (elems : List Json)
  | obj (fields : List (String × Json))

/-- The four globals persisted by `saveProgress` and restored by
`loadProgress`: `{plugins, baselinePerformance, performanceImpact,
currentIteration}`.  This is the spec's `ExperimentState` (`nextIndex` is
`currentIteration`). -/
structure SavedState where
  plugins : List Plugin
  baselinePerformance : List (String × Measurement)
  performanceImpact : List (String × List (String × Comparison))
  currentIteration : ℕ
deriving Repr, DecidableEq

def encodePlugin (p : Plugin) : Json :=
  .obj [("name", .str p.name), ("status", .str p.status)]

def decodePlugin : Json → Option Plugin
  | .obj [("name", .str n), ("status", .str s)] => some ⟨n, s⟩
  | _ => none

def encodeMeasurement : Measurement → Json
  | .score v => .num v
  | .error => .str "Error"

def decodeMeasurement : Json → Option Measurement
  | .num v => some (.score v)
  | .str s => if s = "Error" then some .error else none
  | _ => none

def encodeComparison : Comparison → Json
  | .delta d => .obj [("diff", .num d.diff), ("faster", .bool d.faster),
      ("baseline", .num d.baseline), ("current", .num d.current)]
  | .error => .str "Error"

def decodeComparison : Json → Option Comparison
  | .obj [("diff", .num df), ("faster", .bool f),
      ("baseline", .num b), ("current", .num c)] => some (.delta ⟨df, f, b, c⟩)
  | .str s => if s = "Error" then some .error else none
  | _ => none

/-- Decode a JSON array elementwise, failing if any element fails. -/
def decodeList (f : Json → Option α) : List Json → Option (List α)
  | [] => some []
  | j :: js =>
    match f j, decodeList f js with
    | some a, some r => some (a :: r)
    | _, _ => none

/-- Decode the fields of a JSON object elementwise, keeping the keys. -/
def decodePairs (f : Json → Option α) :
    List (String × Json) → Option (List (String × α))
  | [] => some []
  | (k, j) :: rest =>
    match f j, decodePairs f rest with
    | some a, some r => some ((k, a) :: r)
    | _, _ => none

def encodeComparisons (m : List (String × Comparison)) : Json :=
  .obj (m.map (fun p => (p.1, encodeComparison p.2)))

def decodeComparisons : Json → Option (List (String × Comparison))
  | .obj fields => decodePairs decodeComparison fields
  | _ => none

def encodeMeasurements (m : List (String × Measurement)) : Json :=
  .obj (m.map (fun p => (p.1, encodeMeasurement p.2)))

def decodeMeasurements : Json → Option (List (String × Measurement))
  | .obj fields => decodePairs decodeMeasurement fields
  | _ => none

/-- `JSON.stringify({plugins, baselinePerformance, performanceImpact,
currentIteration})` as a JSON value. -/
def encodeProgress (s : SavedState) : Json :=
  .obj [("plugins", .arr (s.plugins.map encodePlugin)),
        ("baselinePerformance", encodeMeasurements s.baselinePerformance),
        ("performanceImpact",
          .obj (s.performanceImpact.map (fun p => (p.1, encodeComparisons p.2)))),
        ("currentIteration", .num s.currentIteration)]

def decodeProgress : Json → Option SavedState
  | .obj [("plugins", .arr pjs),
          ("baselinePerformance", bj),
          ("performanceImpact", .obj ijs),
          ("currentIteration", .num n)] =>
    match decodeList decodePlugin pjs, decodeMeasurements bj,
        decodePairs decodeComparisons ijs with
    | some ps, some bm, some imp =>
      if n.den = 1 ∧ 0 ≤ n.num then some ⟨ps, bm, imp, n.num.toNat⟩ else none
    | _, _, _ => none
  | _ => none

/-- `saveProgress()`: `fs.writeFileSync('progress.json', JSON.stringify(progress))`
replaces the file contents with the serialised state. -/
def saveProgress (s : SavedState) (_fs : Option Json) : Option Json :=
  some (encodeProgress s)

/-- `loadProgress()`: if `progress.json` does not exist, return absent (the JS
function returns `false`, which is not an error); otherwise `JSON.parse` it —
a malformed file makes the parse throw, which the `try/catch` in `main`
surfaces as an error. -/
def loadProgress (fs : Option Json) : Except String (Option SavedState) :=
  match fs with
  | none => .ok none
  | some j =>
    match decodeProgress j with
    | some s => .ok (some s)
    | none => .error "SyntaxError: JSON.parse"

theorem decodeList_encode {f : Json → Option α} {g : α → Json}
    (hfg : ∀ a, f (g a) = some a) (l : List α) :
    decodeList f (l.map g) = some l := by
  induction l with
  | nil => rfl
  | cons hd tl ih => simp [decodeList, hfg, ih]

theorem decodePairs_encode {f : Json → Option α} {g : α → Json}
    (hfg : ∀ a, f (g a) = some a) (l : List (String × α)) :
    decodePairs f (l.map (fun p => (p.1, g p.2))) = some l := by
  induction l with
  | nil => rfl
  | cons hd tl ih => simp [decodePairs, hfg, ih]

theorem decodePlugin_encode (p : Plugin) :
    decodePlugin (encodePlugin p) = some p := rfl

theorem decodeMeasurement_encode (m : Measurement) :
    decodeMeasurement (encodeMeasurement m) = some m := by
  cases m <;> simp [encodeMeasurement, decodeMeasurement]

theorem decodeComparison_encode (c : Comparison) :
    decodeComparison (encodeComparison c) = some c := by
  cases c <;> simp [encodeComparison, decodeComparison]

theorem decodeComparisons_encode (m : List (String × Comparison)) :
    decodeComparisons (encodeComparisons m) = some m :=
  decodePairs_encode decodeComparison_encode m

theorem decodeMeasurements_encode (m : List (String × Measurement)) :
    decodeMeasurements (encodeMeasurements m) = some m :=
  decodePairs_encode decodeMeasurement_encode m

theorem decodeProgress_encode (s : SavedState) :
    decodeProgress (encodeProgress s) = some s := by
  obtain ⟨ps, bm, imp, i⟩ := s
  simp only [encodeProgress, decodeProgress, decodeList_encode decodePlugin_encode,
    decodeMeasurements_encode, decodePairs_encode decodeComparisons_encode]
  have h : ((i : ℚ)).den = 1 ∧ 0 ≤ ((i : ℚ)).num := by
    simp [Rat.den_natCast, Rat.num_natCast]
  simp [h]

/-- C6: the checkpoint round-trip.  Saving any `ExperimentState` — including
the initial one with an empty `performanceImpact` — and loading it back
reproduces an equal value, and loading when no checkpoint file exists returns
absent (`Except.ok none`), not an error. -/
theorem c6_checkpoint_roundtrip (s : SavedState) (fs : Option Json) :
    loadProgress (saveProgress s fs) = .ok (some s) ∧
    loadProgress none = .ok none := by
  constructor
  · simp [loadProgress, saveProgress, decodeProgress_encode]
  · rfl

/-! ## Experiment controller

The `for (let i = currentIteration; i < plugins.length; i++)` loop of `main`.
External collaborators are opaque capabilities (spec section 2): each remote
call either yields a value or fails (a rejected promise, which `await`
propagates to the `try/catch` of `main`).  Because the measurement capability
is not idempotent, its outputs are indexed by the loop iteration that performs
the pass.  The `shouldStop` flag is written concurrently by the readline
listener; since it is only ever read at the top of a loop iteration, a run is
determined by which boundary checks observe it set, modelled as `stop i` for
the check preceding iteration `i`.

Each completed remote call and each checkpoint write is recorded in an event
trace (the loop index is carried alongside the plugin name for bookkeeping).
The 5-second settle waits after each toggle have no observable state; the
ordering they sit in — deactivate, measure, record, reactivate, then the
checkpoint write — is the order of the trace. -/

/-- Observable actions of one run, in order. -/
inductive Event where
  | toggleOff (i : ℕ) (name : String)
  | toggleOn (i : ℕ) (name : String)
  | checkpoint (s : SavedState)
deriving Repr, DecidableEq

/-- The external world of one run. -/
structure Env where
  /-- `PAGES_TO_TEST`. -/
  pages : List String
  /-- Result of `wp plugin deactivate`/`activate` (`false`/`true`) issued by
  iteration `i`: the command output, or a rejected promise. -/
  toggle : ℕ → Bool → Except String String
  /-- Result of `runLighthouse url` during iteration `i`'s measurement pass. -/
  measure : ℕ → String → Except String LighthouseResult
  /-- Whether `shouldStop` is observed set by the boundary check before
  iteration `i`. -/
  stop : ℕ → Bool

/-- One iteration of the loop body for index `i` (given the check of
`shouldStop` did not break): skip the plugin unless `status === 'active'`;
otherwise deactivate, measure, compare against the baseline, record into
`performanceImpact`, reactivate, advance `currentIteration` and save.  A
failed toggle call rejects, carrying the globals as they stood. -/
def runIteration (env : Env) (s : SavedState) (i : ℕ) :
    Except (String × SavedState) SavedState × List Event :=
  match s.plugins.get? i with
  | none => (.ok s, [])
  | some plugin =>
    if plugin.status = "active" then
      match env.toggle i false with
      | .error e => (.error (e, s), [.toggleOff i plugin.name])
      | .ok _ =>
        let current := testPerformance env.pages (env.measure i)
        let comparison := comparePerformance s.baselinePerformance current
        let s2 : SavedState :=
          { s with performanceImpact :=
              recordImpact s.performanceImpact plugin.name comparison }
        match env.toggle i true with
        | .error e => (.error (e, s2), [.toggleOff i plugin.name, .toggleOn i plugin.name])
        | .ok _ =>
          let s4 : SavedState := { s2 with currentIteration := i + 1 }
          (.ok s4,
           [.toggleOff i plugin.name, .toggleOn i plugin.name, .checkpoint s4])
    else (.ok s, [])

/-- The loop from index `i`, with `fuel` iterations left before the bound
`plugins.length` is reached.  The `shouldStop` flag is consulted first in
every iteration; a rejected remote call aborts the whole loop. -/
def runLoop (env : Env) : ℕ → SavedState → ℕ →
    Except (String × SavedState) SavedState × List Event
  | 0, s, _ => (.ok s, [])
  | n + 1, s, i =>
    if env.stop i then (.ok s, [])
    else
      match runIteration env s i with
      | (.ok s2, ev) =>
        let r := runLoop env n s2 (i + 1)
        (r.1, ev ++ r.2)
      | (.error es, ev) => (.error es, ev)

/-- The whole loop of `main`, starting at `currentIteration` (0 for a fresh
start, the checkpoint cursor for a resumed one). -/
def runFrom (env : Env) (s : SavedState) :
    Except (String × SavedState) SavedState × List Event :=
  runLoop env (s.plugins.length - s.currentIteration) s s.currentIteration

/-- The contents of `progress.json` after a run: each checkpoint event is a
`saveProgress` call replacing the file. -/
def applyEvents (fs : Option Json) (evs : List Event) : Option Json :=
  evs.foldl (fun f e =>
    match e with
    | .checkpoint s => saveProgress s f
    | _ => f) fs

/-- `sortedImpact`: JS `Array.prototype.sort` is stable and the comparator
`sumB - sumA` orders by descending total score delta, so the result is the
stable descending insertion sort by `totalImpact`.  `rankInsert` places an
element after every element with a strictly larger or equal total already
placed before it. -/
def rankInsert (x : String × List (String × Comparison)) :
    List (String × List (String × Comparison)) →
    List (String × List (String × Comparison))
  | [] => [x]
  | y :: ys =>
    if totalImpact x.2 ≥ totalImpact y.2 then x :: y :: ys
    else y :: rankInsert x ys

/-- `Object.entries(performanceImpact).sort(...)`: stable descending sort by
total score delta. -/
def sortImpact :
    List (String × List (String × Comparison)) →
    List (String × List (String × Comparison))
  | [] => []
  | x :: xs => rankInsert x (sortImpact xs)

/-- The readline `line` handler: a line equal (case-insensitively) to `stop`
sets `shouldStop`; any other input leaves it unchanged. -/
def onLine (input : String) (shouldStop : Bool) : Bool :=
  if input.toLower = "stop" then true else shouldStop

/-- State establishment at the top of `main`: `resume && loadProgress()`
restores the four globals from the checkpoint; otherwise connect, fetch the
plugin list and measure the baseline.  A failed connection/plugin fetch, or a
malformed checkpoint, rejects into the `try/catch`. -/
def initialState (resume : Bool) (fs0 : Option Json)
    (pluginList : Except String (List Plugin)) (pages : List String)
    (measureBaseline : String → Except String LighthouseResult) :
    Except String SavedState :=
  match resume, fs0 with
  | true, some j =>
    (match decodeProgress j with
     | some s => .ok s
     | none => .error "SyntaxError: JSON.parse")
  | _, _ =>
    match pluginList with
    | .error e => .error e
    | .ok ps => .ok ⟨ps, testPerformance pages measureBaseline, [], 0⟩

/-- Outcome of `main`: either the final report (the sorted impact list, the
final globals, the final `progress.json`), or the outer `catch` (error
message, globals and file at the moment of the rejection).  Only the report
path runs the ranking. -/
inductive RunResult where
  | report (ranked : List (String × List (String × Comparison)))
      (final : SavedState) (fs : Option Json)
  | fatal (e : String) (final : SavedState) (fs : Option Json)

/-- `main(resume)` end to end. -/
def mainRun (env : Env) (resume : Bool) (fs0 : Option Json)
    (pluginList : Except String (List Plugin))
    (measureBaseline : String → Except String LighthouseResult) : RunResult :=
  match initialState resume fs0 pluginList env.pages measureBaseline with
  | .error e => .fatal e ⟨[], [], [], 0⟩ fs0
  | .ok s0 =>
    match runFrom env s0 with
    | (.ok s, evs) => .report (sortImpact s.performanceImpact) s (applyEvents fs0 evs)
    | (.error (e, s), evs) => .fatal e s (applyEvents fs0 evs)

/-! ### Association list helpers for `recordImpact` -/

theorem lookup_append_not_found {β : Type} (l1 l2 : List (String × β)) (k : String)
    (h : l1.any (fun p => p.1 == k) = false) :
    (l1 ++ l2).lookup k = l2.lookup k := by
  induction l1 with
  | nil => rfl
  | cons hd tl ih =>
    simp only [List.any_cons, Bool.or_eq_false_iff] at h
    have hk : (k == hd.1) = false := by
      cases hbeq : k == hd.1
      · rfl
      · exact absurd (beq_iff_eq .. |>.mpr (eq_of_beq hbeq).symm) (by simp [h.1])
    simp only [List.cons_append, List.lookup, hk]
    exact ih h.2

theorem lookup_map_replace {β : Type} (imp : List (String × β)) (k : String) (v : β)
    (h : imp.any (fun p => p.1 == k) = true) :
    (imp.map (fun p => if p.1 == k then (k, v) else p)).lookup k = some v := by
  induction imp with
  | nil => simp at h
  | cons hd tl ih =>
    cases hk : hd.1 == k
    · have hk2 : (k == hd.1) = false := by
        cases hbeq : k == hd.1
        · rfl
        · exact absurd (beq_iff_eq .. |>.mpr (eq_of_beq hbeq).symm) (by simp [hk])
      simp only [List.any_cons, hk, Bool.false_or] at h
      simp only [List.map_cons, hk, if_neg (by simp [hk] : ¬ (hd.1 == k) = true)]
      simp only [List.lookup, hk2]
      exact ih h
    · simp only [List.map_cons, if_pos hk]
      simp [List.lookup]

theorem recordImpact_eq_append {imp : List (String × List (String × Comparison))}
    {k : String} {v : List (String × Comparison)}
    (h : imp.any (fun p => p.1 == k) = false) :
    recordImpact imp k v = imp ++ [(k, v)] := by
  unfold recordImpact
  rw [h]
  simp

theorem recordImpact_eq_map {imp : List (String × List (String × Comparison))}
    {k : String} {v : List (String × Comparison)}
    (h : imp.any (fun p => p.1 == k) = true) :
    recordImpact imp k v = imp.map (fun p => if p.1 == k then (k, v) else p) := by
  unfold recordImpact
  rw [h]
  simp

theorem lookup_map_replace_isSome {β : Type} (imp : List (String × β)) (k : String)
    (v : β) (k' : String) (h : (imp.lookup k').isSome = true) :
    ((imp.map (fun p => if p.1 == k then (k, v) else p)).lookup k').isSome = true := by
  induction imp with
  | nil => simp [List.lookup] at h
  | cons hd tl ih =>
    cases hrep : hd.1 == k
    · have hkeep : (if (hd.1 == k) = true then (k, v) else hd) = hd := by simp [hrep]
      rw [List.map_cons, hkeep]
      cases hk : k' == hd.1
      · simp only [List.lookup, hk] at h ⊢
        exact ih h
      · simp [List.lookup, hk]
    · have hdk : hd.1 = k := eq_of_beq hrep
      have hrepl : (if (hd.1 == k) = true then (k, v) else hd) = (k, v) := by
        simp [hrep]
      rw [List.map_cons, hrepl]
      cases hk : k' == hd.1
      · have hk2 : (k' == k) = false := hdk ▸ hk
        simp only [List.lookup, hk] at h
        simp only [List.lookup, hk2]
        exact ih h
      · have hk2 : (k' == k) = true := hdk ▸ hk
        simp [List.lookup, hk2]

theorem lookup_append_isSome {β : Type} (l1 l2 : List (String × β)) (k' : String)
    (h : (l1.lookup k').isSome = true) :
    ((l1 ++ l2).lookup k').isSome = true := by
  induction l1 with
  | nil => simp [List.lookup] at h
  | cons hd tl ih =>
    cases hk : k' == hd.1
    · simp only [List.lookup, hk] at h
      simp only [List.cons_append, List.lookup, hk]
      exact ih h
    · simp [List.lookup, hk]

theorem lookup_map_replace_cases {β : Type} (imp : List (String × β)) (k : String)
    (v : β) (k' : String) (c : β)
    (h : (imp.map (fun p => if p.1 == k then (k, v) else p)).lookup k' = some c) :
    imp.lookup k' = some c ∨ c = v := by
  induction imp with
  | nil => cases h
  | cons hd tl ih =>
    cases hrep : hd.1 == k
    · have hkeep : (if (hd.1 == k) = true then (k, v) else hd) = hd := by simp [hrep]
      rw [List.map_cons, hkeep] at h
      cases hk : k' == hd.1
      · simp only [List.lookup, hk] at h
        simp only [List.lookup, hk]
        exact ih h
      · simp only [List.lookup, hk] at h ⊢
        exact Or.inl h
    · have hdk : hd.1 = k := eq_of_beq hrep
      have hrepl : (if (hd.1 == k) = true then (k, v) else hd) = (k, v) := by
        simp [hrep]
      rw [List.map_cons, hrepl] at h
      cases hk : k' == hd.1
      · have hk2 : (k' == k) = false := hdk ▸ hk
        simp only [List.lookup, hk2] at h
        simp only [List.lookup, hk]
        exact ih h
      · have hk2 : (k' == k) = true := hdk ▸ hk
        simp only [List.lookup, hk2] at h
        exact Or.inr (by injection h with h1; exact h1.symm)

theorem lookup_append_single_cases {β : Type} (l : List (String × β)) (k : String)
    (v : β) (k' : String) (c : β)
    (h : (l ++ [(k, v)]).lookup k' = some c) :
    l.lookup k' = some c ∨ c = v := by
  induction l with
  | nil =>
    simp only [List.nil_append] at h
    cases hk : k' == k <;> simp only [List.lookup, hk] at h
    · simp [List.lookup] at h
    · exact Or.inr (by injection h with h1; exact h1.symm)
  | cons hd tl ih =>
    cases hk : k' == hd.1
    · simp only [List.cons_append, List.lookup, hk] at h
      simp only [List.lookup, hk]
      exact ih h
    · simp only [List.cons_append, List.lookup, hk] at h
      simp only [List.lookup, hk]
      exact Or.inl h

/-- After `performanceImpact[name] = comparison`, looking up `name` yields the
just-stored comparison. -/
theorem recordImpact_lookup_self {imp : List (String × List (String × Comparison))}
    {k : String} {v : List (String × Comparison)} :
    (recordImpact imp k v).lookup k = some v := by
  cases h : imp.any (fun p => p.1 == k)
  · rw [recordImpact_eq_append h, lookup_append_not_found _ _ _ h]
    simp [List.lookup]
  · rw [recordImpact_eq_map h]
    exact lookup_map_replace imp k v h

/-- `performanceImpact[name] = comparison` never removes other entries. -/
theorem recordImpact_lookup_isSome {imp : List (String × List (String × Comparison))}
    {k : String} {v : List (String × Comparison)} {k' : String}
    (h : (imp.lookup k').isSome = true) :
    ((recordImpact imp k v).lookup k').isSome = true := by
  cases hb : imp.any (fun p => p.1 == k)
  · rw [recordImpact_eq_append hb]
    exact lookup_append_isSome _ _ _ h
  · rw [recordImpact_eq_map hb]
    exact lookup_map_replace_isSome _ _ _ _ h

/-- Every binding in the updated `performanceImpact` is either an old binding
or the just-stored comparison. -/
theorem recordImpact_lookup_cases {imp : List (String × List (String × Comparison))}
    {k : String} {v : List (String × Comparison)} {k' : String}
    {c : List (String × Comparison)}
    (h : (recordImpact imp k v).lookup k' = some c) :
    imp.lookup k' = some c ∨ c = v := by
  cases hb : imp.any (fun p => p.1 == k)
  · rw [recordImpact_eq_append hb] at h
    exact lookup_append_single_cases _ _ _ _ _ h
  · rw [recordImpact_eq_map hb] at h
    exact lookup_map_replace_cases _ _ _ _ _ h

/-- C2: a failed toggle call is fatal, a failed measurement is not.  If the
`wp plugin deactivate` call rejects at iteration `i`, the loop rejects at once
with that error: the only event is the attempted toggle-off, no impact entry is
recorded, no later feature is touched.  If the `wp plugin activate` call
rejects, the loop likewise rejects at once: `currentIteration` is not
advanced and no checkpoint is written for the iteration, so the persisted
record never contains an entry for a feature whose toggle failed
(`applyEvents` leaves `progress.json` untouched).  The rejection propagates to
the `try/catch` of `main`, which `mainRun` renders as a `fatal` outcome —
distinct from a measurement failure, which (third part) is caught inside
`testPerformance`, recorded, and lets the loop continue whatever
`env.measure` returns. -/
theorem c2_toggle_failure_aborts (env : Env) (s : SavedState) (i fuel : ℕ)
    (p : Plugin) (e : String)
    (hp : s.plugins.get? i = some p)
    (hact : p.status = "active")
    (hstop : env.stop i = false) :
    (env.toggle i false = .error e →
      runLoop env (fuel + 1) s i =
        (.error (e, s), [Event.toggleOff i p.name]) ∧
      applyEvents (saveProgress s none) [Event.toggleOff i p.name] =
        saveProgress s none) ∧
    (∀ out, env.toggle i false = .ok out → env.toggle i true = .error e →
      ∃ s2, runLoop env (fuel + 1) s i =
          (.error (e, s2), [Event.toggleOff i p.name, Event.toggleOn i p.name]) ∧
        s2.currentIteration = s.currentIteration ∧
        ∀ fs, applyEvents fs [Event.toggleOff i p.name, Event.toggleOn i p.name] = fs) ∧
    (∀ out out2, env.toggle i false = .ok out → env.toggle i true = .ok out2 →
      ∃ s4, runIteration env s i =
          (.ok s4, [Event.toggleOff i p.name, Event.toggleOn i p.name,
            Event.checkpoint s4]) ∧
        (s4.performanceImpact.lookup p.name).isSome = true) := by
  have hp2 : s.plugins[i]? = some p := by
    rw [← List.get?_eq_getElem?]
    exact hp
  refine ⟨?_, ?_, ?_⟩
  · intro hoff
    constructor
    · simp [runLoop, hstop, runIteration, hp2, hact, hoff]
    · rfl
  · intro out hoff hon
    refine ⟨⟨s.plugins, s.baselinePerformance,
      recordImpact s.performanceImpact p.name
        (comparePerformance s.baselinePerformance
          (testPerformance env.pages (env.measure i))), s.currentIteration⟩,
      ?_, rfl, fun fs => rfl⟩
    simp [runLoop, hstop, runIteration, hp2, hact, hoff, hon]
  · intro out out2 hoff hon
    refine ⟨⟨s.plugins, s.baselinePerformance,
      recordImpact s.performanceImpact p.name
        (comparePerformance s.baselinePerformance
          (testPerformance env.pages (env.measure i))), i + 1⟩, ?_, ?_⟩
    · simp [runIteration, hp2, hact, hoff, hon]
    · simp [recordImpact_lookup_self]

/-- An environment whose toggle capability always rejects. -/
def envToggleFail : Env :=
  ⟨["u"], fun _ _ => .error "boom", fun _ _ => .ok ⟨9/10, [], []⟩, fun _ => false⟩

/-- A one-plugin starting state with a successful baseline. -/
def sOneActive : SavedState :=
  ⟨[⟨"p1", "active"⟩], [("u", .score 80)], [], 0⟩

/-- C2, witness: with one active plugin and a rejecting toggle capability, the
loop rejects on the spot with only the attempted deactivation in the trace. -/
theorem c2_witness :
    runLoop envToggleFail 1 sOneActive 0 =
      (.error ("boom", sOneActive), [Event.toggleOff 0 "p1"]) :=
  ((c2_toggle_failure_aborts envToggleFail sOneActive 0 0 ⟨"p1", "active"⟩ "boom"
    rfl rfl rfl).1 rfl).1

/-! ### Ranking lemmas (C5) -/

theorem rankInsert_perm (x : String × List (String × Comparison))
    (l : List (String × List (String × Comparison))) :
    (rankInsert x l).Perm (x :: l) := by
  induction l with
  | nil => exact List.Perm.refl _
  | cons y ys ih =>
    by_cases h : totalImpact x.2 ≥ totalImpact y.2
    · rw [rankInsert, if_pos h]
    · rw [rankInsert, if_neg h]
      exact (List.Perm.cons y ih).trans (List.Perm.swap x y ys)

theorem sortImpact_perm (l : List (String × List (String × Comparison))) :
    (sortImpact l).Perm l := by
  induction l with
  | nil => exact List.Perm.refl _
  | cons x xs ih =>
    exact (rankInsert_perm x (sortImpact xs)).trans (List.Perm.cons x ih)

theorem rankInsert_sorted (x : String × List (String × Comparison))
    (l : List (String × List (String × Comparison)))
    (h : l.Pairwise (fun a b => totalImpact b.2 ≤ totalImpact a.2)) :
    (rankInsert x l).Pairwise (fun a b => totalImpact b.2 ≤ totalImpact a.2) := by
  induction l with
  | nil => simp [rankInsert]
  | cons y ys ih =>
    rcases List.pairwise_cons.mp h with ⟨hy, hys⟩
    by_cases hxy : totalImpact x.2 ≥ totalImpact y.2
    · rw [rankInsert, if_pos hxy]
      refine List.pairwise_cons.mpr ⟨?_, h⟩
      intro b hb
      rcases List.mem_cons.mp hb with rfl | hb
      · exact hxy
      · exact (hy b hb).trans hxy
    · rw [rankInsert, if_neg hxy]
      refine List.pairwise_cons.mpr ⟨?_, ih hys⟩
      intro b hb
      have hb2 := (rankInsert_perm x ys).mem_iff.mp hb
      rcases List.mem_cons.mp hb2 with rfl | hb2
      · exact le_of_not_le hxy
      · exact hy b hb2

theorem sortImpact_sorted (l : List (String × List (String × Comparison))) :
    (sortImpact l).Pairwise (fun a b => totalImpact b.2 ≤ totalImpact a.2) := by
  induction l with
  | nil => simp [sortImpact]
  | cons x xs ih => exact rankInsert_sorted x (sortImpact xs) ih

/-- Inserting an element does not disturb the relative order of the elements
of any fixed total-score class: elements of a different class are transparent
to the insertion point, and an element of the same class is placed before all
of them (it came earlier in the input). -/
theorem rankInsert_filter_total (x : String × List (String × Comparison))
    (l : List (String × List (String × Comparison))) (t : ℚ) :
    (rankInsert x l).filter (fun e => totalImpact e.2 == t) =
      if totalImpact x.2 == t then
        x :: l.filter (fun e => totalImpact e.2 == t)
      else l.filter (fun e => totalImpact e.2 == t) := by
  induction l with
  | nil =>
    by_cases hx : (totalImpact x.2 == t) = true <;>
      simp [rankInsert, List.filter_cons, hx]
  | cons y ys ih =>
    by_cases hxy : totalImpact x.2 ≥ totalImpact y.2
    · rw [rankInsert, if_pos hxy]
      by_cases hx : (totalImpact x.2 == t) = true <;>
        simp [List.filter_cons, hx]
    · rw [rankInsert, if_neg hxy]
      by_cases hx : (totalImpact x.2 == t) = true
      · have hxt : totalImpact x.2 = t := by simpa using hx
        have hyt : (totalImpact y.2 == t) = false := by
          simp only [beq_eq_false_iff_ne, ne_eq]
          intro hyt
          exact hxy (le_of_eq (hyt.trans hxt.symm))
        simp [List.filter_cons, ih, hx, hyt]
      · simp only [List.filter_cons, ih, hx]
        by_cases hy : (totalImpact y.2 == t) = true <;> simp [hy]

theorem sortImpact_filter_total (l : List (String × List (String × Comparison)))
    (t : ℚ) :
    (sortImpact l).filter (fun e => totalImpact e.2 == t) =
      l.filter (fun e => totalImpact e.2 == t) := by
  induction l with
  | nil => rfl
  | cons x xs ih =>
    rw [sortImpact, rankInsert_filter_total, List.filter_cons]
    by_cases hx : totalImpact x.2 == t <;> simp [hx, ih]

/-- C5: `sortedImpact` is a stable descending sort by total score delta.  The
total of a feature is the sum of `parseFloat(diff)` over its `Delta` pages
with `'Error'` pages contributing 0 (see `totalImpact`), matching both
aggregation sites.  The output is a permutation of `Object.entries(impact)`,
is sorted by weakly decreasing total, and is stable: restricted to any fixed
total value, the output lists exactly the input's entries in their original
(processing) order — so ties keep the original order and the sort is a
deterministic function of its input. -/
theorem c5_rank_stable_descending
    (l : List (String × List (String × Comparison))) (t : ℚ) :
    (sortImpact l).Perm l ∧
    (sortImpact l).Pairwise (fun a b => totalImpact b.2 ≤ totalImpact a.2) ∧
    (sortImpact l).filter (fun e => totalImpact e.2 == t) =
      l.filter (fun e => totalImpact e.2 == t) :=
  ⟨sortImpact_perm l, sortImpact_sorted l, sortImpact_filter_total l t⟩

/-! ### Aggregation (C10) -/

theorem foldl_add_map {α : Type} (f : α → ℚ) (l : List α) (a : ℚ) :
    l.foldl (fun s x => s + f x) a = a + (l.map f).sum := by
  induction l generalizing a with
  | nil => simp
  | cons x xs ih => simp [List.foldl, ih, add_assoc]

theorem totalImpact_eq_sum (imp : List (String × Comparison)) :
    totalImpact imp = (imp.map (fun pc => comparisonDiff pc.2)).sum := by
  simpa [totalImpact] using
    foldl_add_map (fun pc : String × Comparison => comparisonDiff pc.2) imp 0

/-- The contribution of one baseline page to the total: the rounded score
difference when both sides are scores, `0` otherwise. -/
theorem comparisonDiff_entry (bm : Measurement) (copt : Option Measurement) :
    comparisonDiff
      (match copt with
       | some cv => comparePage bm cv
       | none => Comparison.error) =
      (match bm, copt with
       | .score bv, some (.score cv) => toFixed2 (cv - bv)
       | _, _ => 0) := by
  cases bm with
  | score bv =>
    cases copt with
    | none => rfl
    | some cv => cases cv <;> rfl
  | error =>
    cases copt with
    | none => rfl
    | some cv => cases cv <;> rfl

theorem totalImpact_compare (b c : List (String × Measurement)) :
    totalImpact (comparePerformance b c) =
      (b.map (fun pb =>
        match pb.2, c.lookup pb.1 with
        | .score bv, some (.score cv) => toFixed2 (cv - bv)
        | _, _ => 0)).sum := by
  rw [totalImpact_eq_sum]
  induction b with
  | nil => rfl
  | cons hd tl ih =>
    simp only [comparePerformance, List.map_cons, List.sum_cons] at ih ⊢
    rw [comparisonDiff_entry, ih]

/-- C10: per-URL score differences enter the record rounded to two decimals
(`diff.toFixed(2)`, parsed back by `parseFloat` at aggregation time), so a
feature's total score delta — the same formula is used by the ranking
comparator and by the reported overall impact — is the sum of the rounded
per-URL differences.  Second part: this differs from the sum of the exact
differences, e.g. two pages each improving by `0.004` give a reported total
of `0` although the exact total is `1/125`. -/
theorem c10_rounded_totals :
    (∀ (b c : List (String × Measurement)),
      totalImpact (comparePerformance b c) =
        (b.map (fun pb =>
          match pb.2, c.lookup pb.1 with
          | .score bv, some (.score cv) => toFixed2 (cv - bv)
          | _, _ => 0)).sum) ∧
    totalImpact (comparePerformance
      [("u", Measurement.score 0), ("v", Measurement.score 0)]
      [("u", Measurement.score (1/250)), ("v", Measurement.score (1/250))]) = 0 ∧
    ((1/250 : ℚ) - 0) + ((1/250 : ℚ) - 0) ≠ 0 := by
  refine ⟨totalImpact_compare, ?_, by norm_num⟩
  rw [totalImpact_compare]
  have hvu : ("v" == "u") = false := by decide
  have huu : ("u" == "u") = true := by decide
  have hvv : ("v" == "v") = true := by decide
  simp only [List.map_cons, List.map_nil, List.lookup, hvu, huu, hvv,
    List.sum_cons, List.sum_nil]
  norm_num [toFixed2, ratFloor_eq_floor]

/-! ### Failure propagation (C4) -/

/-- `comparePage` with an `'Error'` baseline is `'Error'`. -/
theorem comparePage_error_left (c : Measurement) :
    comparePage Measurement.error c = Comparison.error := by
  cases c <;> rfl

/-- Part (i) of C4 as a standalone lemma: an `'Error'` on either side makes
the page's comparison `'Error'`. -/
theorem compare_error_lookup (b c : List (String × Measurement)) (page : String)
    (m : Measurement) (hb : b.lookup page = some m)
    (herr : m = Measurement.error ∨ c.lookup page = some Measurement.error) :
    (comparePerformance b c).lookup page = some Comparison.error := by
  rw [comparePerformance_lookup, hb]
  rcases herr with rfl | hc
  · cases hcl : c.lookup page <;> simp [hcl, comparePage_error_left]
  · simp [hc, comparePage_error_right]

/-- The state of the globals when the loop ends, normally or by rejection. -/
def finalState (r : Except (String × SavedState) SavedState × List Event) :
    SavedState :=
  match r.1 with
  | .ok s => s
  | .error es => es.2

/-- The invariant used for the run-level half of C4: the baseline holds
`'Error'` for `url` and every recorded comparison holds `'Error'` at `url`. -/
def ErrorAt (url : String) (s : SavedState) : Prop :=
  s.baselinePerformance.lookup url = some Measurement.error ∧
  ∀ name cmp, s.performanceImpact.lookup name = some cmp →
    cmp.lookup url = some Comparison.error

theorem runIteration_errorAt (env : Env) (s : SavedState) (i : ℕ) (url : String)
    (h : ErrorAt url s) :
    ErrorAt url (finalState ((runIteration env s i).1, [])) := by
  unfold runIteration
  cases hp : s.plugins.get? i with
  | none => exact h
  | some plugin =>
    by_cases hact : plugin.status = "active"
    · simp only [if_pos hact]
      cases hoff : env.toggle i false with
      | error e => exact h
      | ok out =>
        cases hon : env.toggle i true with
        | error e =>
          refine ⟨h.1, ?_⟩
          intro name cmp hl
          simp only at hl
          rcases recordImpact_lookup_cases hl with hold | rfl
          · exact h.2 name cmp hold
          · exact compare_error_lookup _ _ _ _ h.1 (Or.inl rfl)
        | ok out2 =>
          refine ⟨h.1, ?_⟩
          intro name cmp hl
          simp only at hl
          rcases recordImpact_lookup_cases hl with hold | rfl
          · exact h.2 name cmp hold
          · exact compare_error_lookup _ _ _ _ h.1 (Or.inl rfl)
    · simp only [if_neg hact]
      exact h

theorem runLoop_errorAt (env : Env) (url : String) :
    ∀ (fuel : ℕ) (s : SavedState) (i : ℕ), ErrorAt url s →
      ErrorAt url (finalState (runLoop env fuel s i))
  | 0, s, i, h => h
  | fuel + 1, s, i, h => by
    rw [runLoop]
    by_cases hstop : env.stop i = true
    · simp only [if_pos hstop]
      exact h
    · simp only [if_neg hstop]
      have hiter := runIteration_errorAt env s i url h
      rcases hit : runIteration env s i with ⟨r, ev⟩
      rw [hit] at hiter
      cases r with
      | ok s2 =>
        simp only
        exact runLoop_errorAt env url fuel s2 (i + 1) hiter
      | error es =>
        simp only
        exact hiter

/-- C4: for every URL in the baseline's key set, an `'Error'` on either side
makes `comparePerformance` yield `'Error'` for that URL, whatever the other
side holds; consequently, in any run whose baseline holds `'Error'` for a URL
(and whose starting impact record, empty on a fresh start, already satisfies
this), every comparison recorded by the loop — whether it ends normally,
cancelled, or rejected — holds `'Error'` at that URL. -/
theorem c4_failure_unavailable :
    (∀ (b c : List (String × Measurement)) (page : String) (m : Measurement),
      b.lookup page = some m →
      (m = Measurement.error ∨ c.lookup page = some Measurement.error) →
      (comparePerformance b c).lookup page = some Comparison.error) ∧
    (∀ (env : Env) (s : SavedState) (url : String),
      s.baselinePerformance.lookup url = some Measurement.error →
      (∀ name cmp, s.performanceImpact.lookup name = some cmp →
        cmp.lookup url = some Comparison.error) →
      ∀ name cmp,
        (finalState (runFrom env s)).performanceImpact.lookup name = some cmp →
        cmp.lookup url = some Comparison.error) :=
  ⟨compare_error_lookup,
   fun env s url hb himp =>
     (runLoop_errorAt env url _ s s.currentIteration ⟨hb, himp⟩).2⟩

/-- An environment whose toggles succeed but whose measurement capability
always rejects (caught per page inside `testPerformance`). -/
def envMeasureFail : Env :=
  ⟨["u"], fun _ _ => .ok "", fun _ _ => .error "lighthouse", fun _ => false⟩

/-- One active plugin over a baseline whose only page failed to measure. -/
def sErrBase : SavedState :=
  ⟨[⟨"p1", "active"⟩], [("u", .error)], [], 0⟩

/-- C4, witness: both halves applied at concrete inputs — an `'Error'`
baseline page compares to `'Error'` against a successful candidate, and the
comparison recorded for `p1` by a full run over `sErrBase` holds `'Error'`
at `"u"`. -/
theorem c4_witness :
    (comparePerformance [("u", Measurement.error)]
      [("u", Measurement.score 90)]).lookup "u" = some Comparison.error ∧
    List.lookup "u" [("u", Comparison.error)] = some Comparison.error :=
  ⟨c4_failure_unavailable.1 _ _ "u" _ rfl (Or.inl rfl),
   c4_failure_unavailable.2 envMeasureFail sErrBase "u" rfl
     (fun _ _ h => Option.noConfusion h) "p1" [("u", Comparison.error)] rfl⟩

/-! ### Loop structure lemmas -/

/-- Exhaustive case analysis of one loop-body iteration. -/
theorem runIteration_cases (env : Env) (s : SavedState) (i : ℕ) :
    (s.plugins[i]? = none ∧ runIteration env s i = (.ok s, [])) ∨
    (∃ p, s.plugins[i]? = some p ∧ p.status ≠ "active" ∧
      runIteration env s i = (.ok s, [])) ∨
    (∃ p e, s.plugins[i]? = some p ∧ p.status = "active" ∧
      env.toggle i false = .error e ∧
      runIteration env s i = (.error (e, s), [.toggleOff i p.name])) ∨
    (∃ p e s2, s.plugins[i]? = some p ∧ p.status = "active" ∧
      env.toggle i true = .error e ∧
      runIteration env s i =
        (.error (e, s2), [.toggleOff i p.name, .toggleOn i p.name]) ∧
      s2.plugins = s.plugins ∧ s2.currentIteration = s.currentIteration ∧
      s2.baselinePerformance = s.baselinePerformance) ∨
    (∃ p s4, s.plugins[i]? = some p ∧ p.status = "active" ∧
      runIteration env s i =
        (.ok s4, [.toggleOff i p.name, .toggleOn i p.name, .checkpoint s4]) ∧
      s4.plugins = s.plugins ∧ s4.currentIteration = i + 1 ∧
      s4.baselinePerformance = s.baselinePerformance ∧
      s4.performanceImpact = recordImpact s.performanceImpact p.name
        (comparePerformance s.baselinePerformance
          (testPerformance env.pages (env.measure i)))) := by
  cases hp : s.plugins[i]? with
  | none => exact Or.inl ⟨rfl, by simp [runIteration, hp]⟩
  | some p =>
    by_cases hact : p.status = "active"
    · cases hoff : env.toggle i false with
      | error e =>
        refine Or.inr (Or.inr (Or.inl ⟨p, e, rfl, hact, rfl, ?_⟩))
        simp [runIteration, hp, hact, hoff]
      | ok out =>
        cases hon : env.toggle i true with
        | error e =>
          refine Or.inr (Or.inr (Or.inr (Or.inl ⟨p, e,
            ⟨s.plugins, s.baselinePerformance,
             recordImpact s.performanceImpact p.name
               (comparePerformance s.baselinePerformance
                 (testPerformance env.pages (env.measure i))), s.currentIteration⟩,
            rfl, hact, rfl, ?_, rfl, rfl, rfl⟩)))
          simp [runIteration, hp, hact, hoff, hon]
        | ok out2 =>
          refine Or.inr (Or.inr (Or.inr (Or.inr ⟨p,
            ⟨s.plugins, s.baselinePerformance,
             recordImpact s.performanceImpact p.name
               (comparePerformance s.baselinePerformance
                 (testPerformance env.pages (env.measure i))), i + 1⟩,
            rfl, hact, ?_, rfl, rfl, rfl, rfl⟩)))
          simp [runIteration, hp, hact, hoff, hon]
    · refine Or.inr (Or.inl ⟨p, rfl, hact, ?_⟩)
      simp [runIteration, hp, hact]

/-- The loop decomposes over fuel when the stop flag is never observed. -/
theorem runLoop_append (env : Env) (hstop : ∀ j, env.stop j = false) :
    ∀ (a b : ℕ) (s : SavedState) (i : ℕ),
      runLoop env (a + b) s i =
        (match runLoop env a s i with
         | (.ok s2, ev) =>
           ((runLoop env b s2 (i + a)).1, ev ++ (runLoop env b s2 (i + a)).2)
         | (.error es, ev) => (.error es, ev)) := by
  intro a
  induction a with
  | zero =>
    intro b s i
    simp [runLoop]
  | succ a ih =>
    intro b s i
    have hadd : a + 1 + b = (a + b) + 1 := by omega
    rw [hadd, runLoop, runLoop, hstop i]
    simp only [Bool.false_eq_true, if_false]
    rcases hit : runIteration env s i with ⟨r, ev1⟩
    cases r with
    | error es => simp
    | ok s2 =>
      simp only
      rw [ih b s2 (i + 1)]
      rcases hpre : runLoop env a s2 (i + 1) with ⟨r2, ev2⟩
      cases r2 with
      | error es2 => simp
      | ok s3 =>
        simp only
        have harr : i + 1 + a = i + (a + 1) := by omega
        rw [harr, List.append_assoc]

/-- The loop never changes the plugin list. -/
theorem runLoop_ok_plugins (env : Env) :
    ∀ (fuel : ℕ) (s s' : SavedState) (i : ℕ) (ev : List Event),
      runLoop env fuel s i = (.ok s', ev) → s'.plugins = s.plugins := by
  intro fuel
  induction fuel with
  | zero =>
    intro s s' i ev h
    rw [runLoop] at h
    injection h with h1 h2
    injection h1 with h1
    rw [← h1]
  | succ fuel ih =>
    intro s s' i ev h
    rw [runLoop] at h
    by_cases hstop : env.stop i = true
    · rw [if_pos hstop] at h
      injection h with h1 h2
      injection h1 with h1
      rw [← h1]
    · rw [if_neg hstop] at h
      rcases runIteration_cases env s i with
        ⟨hp, hiter⟩ | ⟨p, hp, hact, hiter⟩ | ⟨p, e, hp, hact, hoff, hiter⟩ |
        ⟨p, e, s2, hp, hact, hon, hiter, hplug, _, _⟩ |
        ⟨p, s4, hp, hact, hiter, hplug, _, _, _⟩ <;>
        (rw [hiter] at h; dsimp only at h)
      · rcases hrun : runLoop env fuel s (i + 1) with ⟨r2, ev2⟩
        rw [hrun] at h
        dsimp only [List.nil_append] at h
        injection h with h1 h2
        exact ih s s' (i + 1) ev2 (by rw [hrun, h1])
      · rcases hrun : runLoop env fuel s (i + 1) with ⟨r2, ev2⟩
        rw [hrun] at h
        dsimp only [List.nil_append] at h
        injection h with h1 h2
        exact ih s s' (i + 1) ev2 (by rw [hrun, h1])
      · injection h with h1 h2
        exact Except.noConfusion h1
      · injection h with h1 h2
        exact Except.noConfusion h1
      · rcases hrun : runLoop env fuel s4 (i + 1) with ⟨r2, ev2⟩
        rw [hrun] at h
        dsimp only at h
        injection h with h1 h2
        exact (ih s4 s' (i + 1) ev2 (by rw [hrun, h1])).trans hplug

/-- Trace of a completed (never-stopped) run: a toggle-off event for index `j`
appears iff `j` lies in the iteration range and holds an active plugin, whose
name the event carries. -/
theorem runLoop_toggleOff_mem (env : Env) (hstop : ∀ j, env.stop j = false) :
    ∀ (fuel : ℕ) (s s' : SavedState) (i : ℕ) (ev : List Event),
      runLoop env fuel s i = (.ok s', ev) →
      ∀ (j : ℕ) (nm : String),
        Event.toggleOff j nm ∈ ev ↔
          (i ≤ j ∧ j < i + fuel ∧
           ∃ p, s.plugins[j]? = some p ∧ p.status = "active" ∧ nm = p.name) := by
  intro fuel
  induction fuel with
  | zero =>
    intro s s' i ev h j nm
    rw [runLoop] at h
    injection h with h1 h2
    rw [← h2]
    simp only [List.not_mem_nil, false_iff]
    rintro ⟨hj1, hj2, -⟩
    omega
  | succ fuel ih =>
    intro s s' i ev h j nm
    rw [runLoop, if_neg (by rw [hstop i]; exact Bool.false_ne_true)] at h
    rcases runIteration_cases env s i with
      ⟨hp, hiter⟩ | ⟨p, hp, hact, hiter⟩ | ⟨p, e, hp, hact, hoff, hiter⟩ |
      ⟨p, e, s2, hp, hact, hon, hiter, hplug, _, _⟩ |
      ⟨p, s4, hp, hact, hiter, hplug, _, _, _⟩ <;>
      (rw [hiter] at h; dsimp only at h)
    · rcases hrun : runLoop env fuel s (i + 1) with ⟨r2, ev2⟩
      rw [hrun] at h
      dsimp only [List.nil_append] at h
      injection h with h1 h2
      rw [← h2]
      rw [ih s s' (i + 1) ev2 (by rw [hrun, h1]) j nm]
      constructor
      · rintro ⟨hj1, hj2, hP⟩
        exact ⟨by omega, by omega, hP⟩
      · rintro ⟨hj1, hj2, hP⟩
        rcases Nat.eq_or_lt_of_le hj1 with rfl | hlt
        · rcases hP with ⟨p, hpj, -⟩
          rw [hp] at hpj
          exact Option.noConfusion hpj
        · exact ⟨hlt, by omega, hP⟩
    · rcases hrun : runLoop env fuel s (i + 1) with ⟨r2, ev2⟩
      rw [hrun] at h
      dsimp only [List.nil_append] at h
      injection h with h1 h2
      rw [← h2]
      rw [ih s s' (i + 1) ev2 (by rw [hrun, h1]) j nm]
      constructor
      · rintro ⟨hj1, hj2, hP⟩
        exact ⟨by omega, by omega, hP⟩
      · rintro ⟨hj1, hj2, hP⟩
        rcases Nat.eq_or_lt_of_le hj1 with rfl | hlt
        · rcases hP with ⟨p2, hpj, hact2, -⟩
          rw [hp] at hpj
          injection hpj with hpj
          exact absurd (hpj ▸ hact2) hact
        · exact ⟨hlt, by omega, hP⟩
    · injection h with h1 h2
      exact Except.noConfusion h1
    · injection h with h1 h2
      exact Except.noConfusion h1
    · rcases hrun : runLoop env fuel s4 (i + 1) with ⟨r2, ev2⟩
      rw [hrun] at h
      dsimp only at h
      injection h with h1 h2
      rw [← h2]
      have hihm := ih s4 s' (i + 1) ev2 (by rw [hrun, h1]) j nm
      rw [hplug] at hihm
      simp only [List.cons_append, List.nil_append, List.mem_cons, List.mem_append]
      constructor
      · rintro (heq | heq | heq | hmem)
        · injection heq with hj hnm
          exact ⟨by omega, by omega, p, by rw [hj]; exact hp, hact, hnm⟩
        · exact Event.noConfusion heq
        · exact Event.noConfusion heq
        · rcases hihm.mp hmem with ⟨hj1, hj2, hP⟩
          exact ⟨by omega, by omega, hP⟩
      · rintro ⟨hj1, hj2, p2, hpj, hact2, hnm⟩
        rcases Nat.eq_or_lt_of_le hj1 with rfl | hlt
        · rw [hp] at hpj
          injection hpj with hpj
          exact Or.inl (by rw [hnm, hpj])
        · exact Or.inr (Or.inr (Or.inr (hihm.mpr ⟨hlt, by omega, p2, hpj, hact2, hnm⟩)))

/-- C1, amended: resumption equivalence.  If an uninterrupted prefix of the
run (no stop observed, same external outputs) covers indices `0..k-1` and ends
in the state `sk` whose checkpoint cursor is `k`, then the full uninterrupted
run is exactly that prefix followed by the run resumed from `sk`: same
outcome — in particular a field-for-field identical final state and
`performanceImpact` — and the full event list is the prefix events followed by
the resumed events.  Moreover the resumed run issues a toggle-off for exactly
the indices `k..n-1` holding an *active* plugin (inactive plugins are skipped,
which is the one correction to the claim), and never re-processes an index
below `k`. -/
theorem c1_resume_equivalence (env : Env) (s0 sk : SavedState) (k : ℕ)
    (evk : List Event)
    (hstop : ∀ j, env.stop j = false)
    (h0 : s0.currentIteration = 0)
    (hk : k ≤ s0.plugins.length)
    (hpre : runLoop env k s0 0 = (.ok sk, evk))
    (hck : sk.currentIteration = k) :
    runFrom env s0 = ((runFrom env sk).1, evk ++ (runFrom env sk).2) ∧
    (∀ s' ev, runFrom env sk = (.ok s', ev) →
      ∀ j nm, Event.toggleOff j nm ∈ ev ↔
        (k ≤ j ∧ j < s0.plugins.length ∧
         ∃ p, s0.plugins[j]? = some p ∧ p.status = "active" ∧ nm = p.name)) := by
  have hplug : sk.plugins = s0.plugins := runLoop_ok_plugins env k s0 sk 0 evk hpre
  have hres : runFrom env sk = runLoop env (s0.plugins.length - k) sk k := by
    rw [runFrom, hplug, hck]
  constructor
  · obtain ⟨m, hm⟩ : ∃ m, s0.plugins.length = k + m := ⟨s0.plugins.length - k, by omega⟩
    rw [runFrom, runFrom, hplug, hck, h0, Nat.sub_zero, hm]
    have hmm : k + m - k = m := by omega
    rw [hmm]
    have hsplit := runLoop_append env hstop k m s0 0
    rw [hpre] at hsplit
    dsimp only at hsplit
    rw [hsplit, Nat.zero_add]
  · intro s' ev hrun j nm
    have hmem := runLoop_toggleOff_mem env hstop (s0.plugins.length - k) sk s' k ev
      (by rw [← hres]; exact hrun) j nm
    rw [hplug] at hmem
    rw [hmem]
    constructor
    · rintro ⟨h1, h2, hP⟩
      exact ⟨h1, by omega, hP⟩
    · rintro ⟨h1, h2, hP⟩
      exact ⟨h1, by omega, hP⟩

/-- An environment with succeeding toggles, failing measurements and no stop
request. -/
def envB : Env :=
  ⟨["u"], fun _ _ => .ok "", fun _ _ => .error "x", fun _ => false⟩

/-- Plugin `a` active, plugin `b` inactive. -/
def s0B : SavedState :=
  ⟨[⟨"a", "active"⟩, ⟨"b", "inactive"⟩], [("u", .score 80)], [], 0⟩

/-- The checkpoint reached after processing index 0 of `s0B`: cursor 1. -/
def skB : SavedState :=
  ⟨[⟨"a", "active"⟩, ⟨"b", "inactive"⟩], [("u", .score 80)],
   [("a", [("u", Comparison.error)])], 1⟩

/-- C1, counterexample.  The claim says a run resumed from a checkpoint with
`nextIndex = k` processes — toggles, measures, records — exactly the features
at indices `k..n-1`, "skipping none of them".  The code skips features whose
`status` is not `'active'`: `skB` is the genuine checkpoint (cursor 1) that
the uninterrupted prefix of a run over `s0B` reaches, yet resuming from it
performs no action at all for index 1 — the resumed run emits no events (in
particular no toggle-off for feature `b`) and records no impact entry for
`b`. -/
theorem c1_counterexample :
    runLoop envB 1 s0B 0 =
      (.ok skB, [Event.toggleOff 0 "a", Event.toggleOn 0 "a",
        Event.checkpoint skB]) ∧
    runFrom envB skB = (.ok skB, []) ∧
    skB.performanceImpact.lookup "b" = none := by
  refine ⟨rfl, rfl, rfl⟩

/-- C1, witness: the equivalence applied to the two-plugin example — the full
run equals the prefix over index 0 followed by the run resumed from the
cursor-1 checkpoint. -/
theorem c1_witness :
    runFrom envB s0B =
      ((runFrom envB skB).1,
        [Event.toggleOff 0 "a", Event.toggleOn 0 "a", Event.checkpoint skB] ++
          (runFrom envB skB).2) :=
  (c1_resume_equivalence envB s0B skB 1
    [Event.toggleOff 0 "a", Event.toggleOn 0 "a", Event.checkpoint skB]
    (fun _ => rfl) rfl (by decide) rfl rfl).1

/-! ### Cancellation (C8) -/

/-- The same external world with the stop flag never observed set. -/
def envNoStop (env : Env) : Env :=
  { env with stop := fun _ => false }

/-- A run whose stop flag is first observed set at boundary `b` coincides with
the never-stopped run truncated to the iterations strictly before `b`. -/
theorem runLoop_stop_trunc (env : Env) (b : ℕ)
    (hbefore : ∀ j, j < b → env.stop j = false)
    (hb : env.stop b = true) :
    ∀ (fuel : ℕ) (s : SavedState) (i : ℕ), i ≤ b →
      runLoop env fuel s i = runLoop (envNoStop env) (min fuel (b - i)) s i := by
  intro fuel
  induction fuel with
  | zero =>
    intro s i hi
    rw [Nat.zero_min]
    rfl
  | succ fuel ih =>
    intro s i hi
    rcases Nat.eq_or_lt_of_le hi with rfl | hlt
    · have hm : min (fuel + 1) (i - i) = 0 := by omega
      rw [hm]
      conv_lhs => rw [runLoop]
      rw [if_pos hb]
      rfl
    · have hm : min (fuel + 1) (b - i) = min fuel (b - i - 1) + 1 := by omega
      rw [hm]
      conv_lhs => rw [runLoop]
      conv_rhs => rw [runLoop]
      rw [if_neg (by rw [hbefore i hlt]; exact Bool.false_ne_true),
        if_neg (show ¬ (envNoStop env).stop i = true from Bool.false_ne_true)]
      rcases hit : runIteration env s i with ⟨r, ev⟩
      have hit2 : runIteration (envNoStop env) s i = (r, ev) := hit
      rw [hit2]
      cases r with
      | ok s2 =>
        dsimp only
        rw [ih s2 (i + 1) (by omega)]
        have harith : b - i - 1 = b - (i + 1) := by omega
        rw [harith]
      | error es => rfl

/-- C8: the cancellation contract.  (1) Setting the flag through the input
listener is idempotent, and (2) any input other than a case-insensitive
`stop` leaves it untouched.  (3) A run whose boundary checks first observe the
flag at iteration `b` is *identical* — same outcome, same events, hence same
recorded impact and checkpoints — to the never-cancelled run truncated to the
iterations before `b`: an iteration in progress when the flag is set runs to
completion (toggle-off, measure, record, toggle-on, checkpoint) because the
flag is only consulted at the top of the loop, and nothing at or after
boundary `b` runs.  (4) After the loop exits by observing the flag, `main`
continues into ranking and reporting (it leaves the loop, not the process),
with the partial impact ranked and the checkpoint file as persisted. -/
theorem c8_cancellation (env : Env) (b : ℕ) (s : SavedState)
    (hbefore : ∀ j, j < b → env.stop j = false)
    (hb : env.stop b = true)
    (hib : s.currentIteration ≤ b) :
    (∀ input flag, onLine input (onLine input flag) = onLine input flag) ∧
    (∀ input flag, input.toLower ≠ "stop" → onLine input flag = flag) ∧
    runFrom env s =
      runLoop (envNoStop env)
        (min (s.plugins.length - s.currentIteration) (b - s.currentIteration))
        s s.currentIteration ∧
    (∀ s' ev, runFrom env s = (.ok s', ev) →
      ∀ fs0 pluginList measureBaseline,
        initialState false fs0 pluginList env.pages measureBaseline = .ok s →
        mainRun env false fs0 pluginList measureBaseline =
          .report (sortImpact s'.performanceImpact) s' (applyEvents fs0 ev)) := by
  refine ⟨?_, ?_, ?_, ?_⟩
  · intro input flag
    unfold onLine
    by_cases h : input.toLower = "stop" <;> simp [h]
  · intro input flag h
    unfold onLine
    rw [if_neg h]
  · exact runLoop_stop_trunc env b hbefore hb _ s s.currentIteration hib
  · intro s' ev hrun fs0 pluginList measureBaseline hinit
    unfold mainRun
    rw [hinit]
    dsimp only
    rw [hrun]

/-- An environment whose stop flag is observed set from boundary 1 on. -/
def envStop1 : Env :=
  ⟨["u"], fun _ _ => .ok "", fun _ _ => .error "x", fun i => decide (1 ≤ i)⟩

/-- Two active plugins, fresh start. -/
def s2Active : SavedState :=
  ⟨[⟨"a", "active"⟩, ⟨"b", "active"⟩], [("u", .score 80)], [], 0⟩

/-- C8, witness: with two active plugins and the flag set during iteration 0,
the run equals the never-cancelled run truncated to iteration 0 alone. -/
theorem c8_witness :
    runFrom envStop1 s2Active =
      runLoop (envNoStop envStop1)
        (min (s2Active.plugins.length - s2Active.currentIteration)
          (1 - s2Active.currentIteration)) s2Active s2Active.currentIteration :=
  (c8_cancellation envStop1 1 s2Active
    (fun j hj => by
      have hj0 : j = 0 := by omega
      subst hj0
      rfl)
    rfl (Nat.zero_le 1)).2.2.1

/-! ### Checkpoint invariant (C7)

A linear scan over the event trace checks, at each `checkpoint` event, that
no deactivation is outstanding (the plugin toggled off by an iteration was
toggled back on before the iteration's checkpoint write was issued) and that
every *active* plugin below the persisted cursor has been deactivated,
reactivated and has an entry in the persisted `performanceImpact`. -/

/-- Scanner state: deactivations not yet matched by a reactivation, and the
indices toggled off / back on so far. -/
structure ScanSt where
  pending : List (ℕ × String)
  seenOff : List ℕ
  seenOn : List ℕ
deriving Repr, DecidableEq

/-- The per-checkpoint check: nothing pending, and every active index below
the persisted cursor was toggled off, toggled on, and recorded. -/
def checkpointGoodB (plugins : List Plugin) (σ : ScanSt) (s : SavedState) : Bool :=
  σ.pending.isEmpty &&
  (List.range s.currentIteration).all (fun j =>
    match plugins[j]? with
    | some p =>
      p.status != "active" ||
        (σ.seenOff.contains j && σ.seenOn.contains j &&
          (s.performanceImpact.lookup p.name).isSome)
    | none => true)

def checkEvent (plugins : List Plugin) (σ : ScanSt) : Event → Option ScanSt
  | .toggleOff i nm => some ⟨σ.pending ++ [(i, nm)], σ.seenOff ++ [i], σ.seenOn⟩
  | .toggleOn i nm =>
    if σ.pending.contains (i, nm) then
      some ⟨σ.pending.erase (i, nm), σ.seenOff, σ.seenOn ++ [i]⟩
    else none
  | .checkpoint s => if checkpointGoodB plugins σ s then some σ else none

def scanEvents (plugins : List Plugin) (σ : ScanSt) : List Event → Option ScanSt
  | [] => some σ
  | e :: rest =>
    match checkEvent plugins σ e with
    | some σ2 => scanEvents plugins σ2 rest
    | none => none

theorem scanEvents_append (P : List Plugin) (σ : ScanSt) (a b : List Event) :
    scanEvents P σ (a ++ b) =
      match scanEvents P σ a with
      | some σ2 => scanEvents P σ2 b
      | none => none := by
  induction a generalizing σ with
  | nil => rfl
  | cons e rest ih =>
    rw [List.cons_append, scanEvents, scanEvents]
    cases checkEvent P σ e with
    | none => rfl
    | some σ2 => exact ih σ2

/-- The loop invariant behind C7: nothing pending, and every active index
below the boundary `i` was toggled off, toggled on, and is recorded in the
current `performanceImpact`. -/
def SeenOK (P : List Plugin) (i : ℕ) (s : SavedState) (σ : ScanSt) : Prop :=
  σ.pending = [] ∧
  ∀ j, j < i → ∀ p, P[j]? = some p → p.status = "active" →
    σ.seenOff.contains j = true ∧ σ.seenOn.contains j = true ∧
    (s.performanceImpact.lookup p.name).isSome = true

theorem contains_append_l {α : Type} [BEq α] [LawfulBEq α] (l1 l2 : List α)
    (a : α) (h : l1.contains a = true) : (l1 ++ l2).contains a = true := by
  simp only [List.contains, List.elem_eq_mem, decide_eq_true_iff,
    List.mem_append] at *
  exact Or.inl h

theorem contains_append_r {α : Type} [BEq α] [LawfulBEq α] (l1 : List α)
    (a : α) : (l1 ++ [a]).contains a = true := by
  simp [List.contains, List.elem_eq_mem]

theorem checkEvent_off (P : List Plugin) (σ : ScanSt) (i : ℕ) (nm : String)
    (hpend : σ.pending = []) :
    checkEvent P σ (Event.toggleOff i nm) =
      some ⟨[(i, nm)], σ.seenOff ++ [i], σ.seenOn⟩ := by
  rw [checkEvent, hpend, List.nil_append]

theorem checkEvent_on (P : List Plugin) (σf σn : List ℕ) (i : ℕ) (nm : String) :
    checkEvent P ⟨[(i, nm)], σf, σn⟩ (Event.toggleOn i nm) =
      some ⟨[], σf, σn ++ [i]⟩ := by
  have hc : ([(i, nm)] : List (ℕ × String)).contains (i, nm) = true := by
    simp [List.contains, List.elem_eq_mem]
  rw [checkEvent, if_pos hc, List.erase_cons_head]

theorem scan_iteration (env : Env) (P : List Plugin) (s : SavedState) (i : ℕ)
    (σ : ScanSt) (hP : s.plugins = P) (hOK : SeenOK P i s σ) :
    (∀ s2 ev, runIteration env s i = (.ok s2, ev) →
      ∃ σ2, scanEvents P σ ev = some σ2 ∧ SeenOK P (i + 1) s2 σ2 ∧
        s2.plugins = P) ∧
    (∀ es ev, runIteration env s i = (.error es, ev) →
      (scanEvents P σ ev).isSome = true) := by
  obtain ⟨hpend, hseen⟩ := hOK
  rcases runIteration_cases env s i with
    ⟨hp, hiter⟩ | ⟨p, hp, hact, hiter⟩ | ⟨p, e, hp, hact, hoff, hiter⟩ |
    ⟨p, e, s2, hp, hact, hon, hiter, hplug, hcur, hbase⟩ |
    ⟨p, s4, hp, hact, hiter, hplug, hcur, hbase, himp⟩
  · constructor
    · intro s2 ev h
      rw [hiter] at h
      injection h with h1 h2
      injection h1 with h1
      subst h1
      rw [← h2]
      refine ⟨σ, rfl, ⟨hpend, ?_⟩, hP⟩
      intro j hj p hpj hactj
      rcases Nat.lt_succ_iff_lt_or_eq.mp hj with hj | rfl
      · exact hseen j hj p hpj hactj
      · rw [← hP, hp] at hpj
        exact Option.noConfusion hpj
    · intro es ev h
      rw [hiter] at h
      injection h with h1 h2
      exact Except.noConfusion h1
  · constructor
    · intro s2 ev h
      rw [hiter] at h
      injection h with h1 h2
      injection h1 with h1
      subst h1
      rw [← h2]
      refine ⟨σ, rfl, ⟨hpend, ?_⟩, hP⟩
      intro j hj p2 hpj hactj
      rcases Nat.lt_succ_iff_lt_or_eq.mp hj with hj | rfl
      · exact hseen j hj p2 hpj hactj
      · rw [← hP, hp] at hpj
        injection hpj with hpj
        exact absurd (hpj ▸ hactj) hact
    · intro es ev h
      rw [hiter] at h
      injection h with h1 h2
      exact Except.noConfusion h1
  · constructor
    · intro s2 ev h
      rw [hiter] at h
      injection h with h1 h2
      exact Except.noConfusion h1
    · intro es ev h
      rw [hiter] at h
      injection h with h1 h2
      rw [← h2]
      simp [scanEvents, checkEvent]
  · constructor
    · intro s3 ev h
      rw [hiter] at h
      injection h with h1 h2
      exact Except.noConfusion h1
    · intro es ev h
      rw [hiter] at h
      injection h with h1 h2
      rw [← h2, scanEvents, checkEvent_off P σ i p.name hpend]
      dsimp only
      rw [scanEvents, checkEvent_on P _ _ i p.name]
      dsimp only
      rw [scanEvents]
      rfl
  · constructor
    · intro s5 ev h
      rw [hiter] at h
      injection h with h1 h2
      injection h1 with h1
      subst h1
      rw [← h2]
      have hrec : ∀ j, j < i + 1 → ∀ p2, P[j]? = some p2 →
          p2.status = "active" →
          (σ.seenOff ++ [i]).contains j = true ∧
          (σ.seenOn ++ [i]).contains j = true ∧
          (s4.performanceImpact.lookup p2.name).isSome = true := by
        intro j hj p2 hpj hactj
        rcases Nat.lt_succ_iff_lt_or_eq.mp hj with hlt | rfl
        · obtain ⟨h1, h2, h3⟩ := hseen j hlt p2 hpj hactj
          refine ⟨contains_append_l _ _ _ h1, contains_append_l _ _ _ h2, ?_⟩
          rw [himp]
          exact recordImpact_lookup_isSome h3
        · have hpp : p2 = p := by
            rw [hP] at hp
            rw [hp] at hpj
            injection hpj with hpj
            exact hpj.symm
          subst hpp
          refine ⟨contains_append_r _ _, contains_append_r _ _, ?_⟩
          rw [himp, recordImpact_lookup_self]
          rfl
      have hgood :
          checkpointGoodB P ⟨[], σ.seenOff ++ [i], σ.seenOn ++ [i]⟩ s4 = true := by
        rw [checkpointGoodB]
        simp only [List.isEmpty_nil, Bool.true_and, List.all_eq_true,
          List.mem_range]
        intro j hj
        rw [hcur] at hj
        cases hpj : P[j]? with
        | none => rfl
        | some p2 =>
          by_cases hactj : p2.status = "active"
          · obtain ⟨h1, h2, h3⟩ := hrec j hj p2 hpj hactj
            simp only [List.contains, List.elem_eq_mem, List.mem_append,
              List.mem_singleton, decide_eq_true_iff] at h1 h2
            simp [h3]
            exact Or.inr ⟨h1, h2⟩
          · simp [hactj]
      refine ⟨⟨[], σ.seenOff ++ [i], σ.seenOn ++ [i]⟩, ?_, ⟨rfl, hrec⟩,
        by rw [hplug, hP]⟩
      rw [scanEvents, checkEvent_off P σ i p.name hpend]
      dsimp only
      rw [scanEvents, checkEvent_on P _ _ i p.name]
      dsimp only
      rw [scanEvents, checkEvent, if_pos hgood]
      rfl
    · intro es ev h
      rw [hiter] at h
      injection h with h1 h2
      exact Except.noConfusion h1

theorem scan_loop (env : Env) (P : List Plugin) :
    ∀ (fuel : ℕ) (s : SavedState) (i : ℕ) (σ : ScanSt),
      s.plugins = P → SeenOK P i s σ →
      (scanEvents P σ (runLoop env fuel s i).2).isSome = true := by
  intro fuel
  induction fuel with
  | zero =>
    intro s i σ hP hOK
    rfl
  | succ fuel ih =>
    intro s i σ hP hOK
    rw [runLoop]
    by_cases hstop : env.stop i = true
    · rw [if_pos hstop]
      rfl
    · rw [if_neg hstop]
      obtain ⟨hok, herr⟩ := scan_iteration env P s i σ hP hOK
      rcases hit : runIteration env s i with ⟨r, ev⟩
      cases r with
      | ok s2 =>
        dsimp only
        rw [scanEvents_append]
        obtain ⟨σ2, hσ2, hOK2, hP2⟩ := hok s2 ev hit
        rw [hσ2]
        exact ih s2 (i + 1) σ2 hP2 hOK2
      | error es =>
        dsimp only
        exact herr es ev hit

/-- C7, amended: checkpoint invariant of a fresh run, whether it completes,
is cancelled, or is aborted by a rejected toggle.  The event-trace scanner
succeeds, which means: at the moment each checkpoint write is issued every
deactivation so far has already been matched by the corresponding
reactivation (no feature is disabled across a persisted checkpoint — the
toggle-on is confirmed, and its settle wait elapsed, before `saveProgress`
runs), and every *active* plugin at an index below the persisted
`currentIteration` cursor has been toggled off, toggled back on, and has an
entry in the persisted `performanceImpact`.  Features that were already
inactive at baseline are skipped untouched — the one correction to the
claim, which asserted this of *all* features below the cursor. -/
theorem c7_checkpoint_invariant (env : Env) (s : SavedState)
    (h0 : s.currentIteration = 0) :
    (scanEvents s.plugins ⟨[], [], []⟩ (runFrom env s).2).isSome = true := by
  apply scan_loop env s.plugins _ s s.currentIteration ⟨[], [], []⟩ rfl
  refine ⟨rfl, ?_⟩
  intro j hj
  rw [h0] at hj
  exact absurd hj (Nat.not_lt_zero j)

/-- Plugin `b` inactive at index 0, plugin `a` active at index 1. -/
def s0B7 : SavedState :=
  ⟨[⟨"b", "inactive"⟩, ⟨"a", "active"⟩], [("u", .score 80)], [], 0⟩

/-- The checkpoint written by the run over `s0B7`: cursor 2, entry for `a`
only. -/
def skB7 : SavedState :=
  ⟨[⟨"b", "inactive"⟩, ⟨"a", "active"⟩], [("u", .score 80)],
   [("a", [("u", Comparison.error)])], 2⟩

/-- C7, counterexample.  The claim says that in every persisted checkpoint
*all* features at indices below `nextIndex` have been fully processed
(toggled off, measured, toggled back on, recorded in impact).  Running over
`s0B7` persists a checkpoint with cursor 2, yet feature `b` at index 0 — which
was inactive — was never toggled off (no such event exists in the whole
trace) and has no entry in the persisted impact record. -/
theorem c7_counterexample :
    runFrom envB s0B7 =
      (.ok skB7, [Event.toggleOff 1 "a", Event.toggleOn 1 "a",
        Event.checkpoint skB7]) ∧
    skB7.currentIteration = 2 ∧
    skB7.performanceImpact.lookup "b" = none ∧
    Event.toggleOff 0 "b" ∉
      [Event.toggleOff 1 "a", Event.toggleOn 1 "a", Event.checkpoint skB7] := by
  refine ⟨rfl, rfl, rfl, ?_⟩
  intro hmem
  simp only [List.mem_cons, List.not_mem_nil, or_false] at hmem
  rcases hmem with h | h | h
  · injection h with h1 h2
    exact absurd h1 (by omega)
  · exact Event.noConfusion h
  · exact Event.noConfusion h

/-- C7, witness: the scanner accepts the full trace of the run over `s0B7`. -/
theorem c7_witness :
    (scanEvents s0B7.plugins ⟨[], [], []⟩ (runFrom envB s0B7).2).isSome = true :=
  c7_checkpoint_invariant envB s0B7 rfl

/-! ### Metrics and timings diffs (C9) -/

/-- The C9 claim, following the spec's words (section 4.1): some reading of
the comparison output exposes `metricsDiff` (resp. `timingsDiff`) maps that
hold `candidate[k] - baseline[k]` for every key `k` present in both sides'
`metrics` (resp. `timings`) maps of the underlying Lighthouse results, for
every both-`Success` page of a measurement pass. -/
def metricsDiffClaim : Prop :=
  ∃ mdiff tdiff : Comparison → List (String × ℚ),
    ∀ (pages : List String) (mb mc : String → Except String LighthouseResult)
      (page : String) (rb rc : LighthouseResult) (cmp : Comparison),
      page ∈ pages → mb page = .ok rb → mc page = .ok rc →
      (comparePerformance (testPerformance pages mb)
        (testPerformance pages mc)).lookup page = some cmp →
      (∀ k bv cv, rb.metrics.lookup k = some bv →
        rc.metrics.lookup k = some cv → (mdiff cmp).lookup k = some (cv - bv)) ∧
      (∀ k bv cv, rb.timings.lookup k = some bv →
        rc.timings.lookup k = some cv → (tdiff cmp).lookup k = some (cv - bv))

/-- C9, counterexample: no such reading can exist, because `testPerformance`
keeps only `categories.performance.score * 100` of each Lighthouse report —
two candidate passes with identical scores but different `metrics` values
(`a = 5` vs `a = 7` against baseline `a = 1`) produce the *same* comparison
object, which would have to yield both `4` and `6` as the metrics diff at
`a`. -/
theorem c9_counterexample : ¬ metricsDiffClaim := by
  rintro ⟨mdiff, tdiff, h⟩
  have h1 := (h ["u"] (fun _ => .ok ⟨4/5, [("a", 1)], []⟩)
      (fun _ => .ok ⟨9/10, [("a", 5)], []⟩) "u" ⟨4/5, [("a", 1)], []⟩
      ⟨9/10, [("a", 5)], []⟩
      (comparePage (Measurement.score ((4/5 : ℚ) * 100))
        (Measurement.score ((9/10 : ℚ) * 100)))
      (List.mem_singleton.mpr rfl) rfl rfl rfl).1 "a" 1 5 rfl rfl
  have h2 := (h ["u"] (fun _ => .ok ⟨4/5, [("a", 1)], []⟩)
      (fun _ => .ok ⟨9/10, [("a", 7)], []⟩) "u" ⟨4/5, [("a", 1)], []⟩
      ⟨9/10, [("a", 7)], []⟩
      (comparePage (Measurement.score ((4/5 : ℚ) * 100))
        (Measurement.score ((9/10 : ℚ) * 100)))
      (List.mem_singleton.mpr rfl) rfl rfl rfl).1 "a" 1 7 rfl rfl
  rw [h1] at h2
  injection h2 with h2
  norm_num at h2

/-- Measurement passes agree whenever the score projections of the underlying
Lighthouse reports agree. -/
theorem testPerformance_congr (pages : List String)
    (m m2 : String → Except String LighthouseResult)
    (h : ∀ page, measurementOf (m page) = measurementOf (m2 page)) :
    testPerformance pages m = testPerformance pages m2 := by
  unfold testPerformance
  induction pages with
  | nil => rfl
  | cons hd tl ih => rw [List.map_cons, List.map_cons, h hd, ih]

/-- C9, amended: the comparison carries score information only.  The
measurement step projects each Lighthouse report to its performance score,
discarding `metrics` and `timings` entirely (first part, a definitional
identity), so the comparison output is invariant under any change to the
reports that preserves the projected scores (second part): no `metricsDiff`
or `timingsDiff` is computed anywhere. -/
theorem c9_score_only :
    (∀ (sc : ℚ) (m t m2 t2 : List (String × ℚ)),
      measurementOf (.ok ⟨sc, m, t⟩) = measurementOf (.ok ⟨sc, m2, t2⟩)) ∧
    (∀ (pages : List String)
      (mb mc mb2 mc2 : String → Except String LighthouseResult),
      (∀ page, measurementOf (mb page) = measurementOf (mb2 page)) →
      (∀ page, measurementOf (mc page) = measurementOf (mc2 page)) →
      comparePerformance (testPerformance pages mb) (testPerformance pages mc) =
        comparePerformance (testPerformance pages mb2)
          (testPerformance pages mc2)) := by
  constructor
  · intro sc m t m2 t2
    rfl
  · intro pages mb mc mb2 mc2 hb hc
    rw [testPerformance_congr pages mb mb2 hb,
      testPerformance_congr pages mc mc2 hc]

/-- C9, witness: two candidate passes with very different metrics but equal
scores compare identically. -/
theorem c9_witness :
    comparePerformance
        (testPerformance ["u"] (fun _ => .ok ⟨4/5, [("a", 1)], []⟩))
        (testPerformance ["u"] (fun _ => .ok ⟨9/10, [("a", 5)], []⟩)) =
      comparePerformance
        (testPerformance ["u"] (fun _ => .ok ⟨4/5, [("a", 99)], []⟩))
        (testPerformance ["u"] (fun _ => .ok ⟨9/10, [("a", 77)], []⟩)) :=
  c9_score_only.2 ["u"] _ _ _ _ (fun _ => rfl) (fun _ => rfl)

end WpPerf

